import Mathlib

/-
Verification development for the ticdc repository fragment.

Part I embeds the sorter pipeline stage of cdc/processor/pipeline/sorter.go:
the dispatch-loop goroutine started by StartActorNode (lines 139-240), the
flow-control block callback (lines 184-197), the puller-side handler
TryHandleDataMessage (lines 251-276), the constructor newSorterNode
(lines 66-78), ResolvedTs (lines 284-286) and the sort-engine selection
switch of StartActorNode (lines 94-115).

Wall-clock time (the resolvedTsInterpolateInterval check) and the behaviour
of the external flow controller (whether Consume blocks, how often it
invokes the block callback, and which error it returns) are modelled as
per-step environment inputs; the embedding is faithful for every choice of
those inputs.

Part II concerns the DM causality detector and relay.  Their implementation
files are not among the provided sources (only their tests are), so those
definitions are modelled from the specification, as marked in their doc
comments.
-/

namespace TicdcProof

/-! ## Part I: sorter pipeline stage (cdc/processor/pipeline/sorter.go) -/

/-- Error returned by tableFlowController.Consume, as distinguished by the
dispatch loop (sorter.go lines 198-212): the dedicated
ErrFlowControllerAborted value versus any other error. -/
inductive ConsumeError where
  | aborted
  | otherErr
deriving Repr, DecidableEq

/-- Per-step environment inputs of the dispatch loop that come from outside
the loop body: whether more than resolvedTsInterpolateInterval has elapsed
since lastSendResolvedTsTime (sorter.go line 166), how many times
flowController.Consume invokes the block callback before returning
(line 184), and which error Consume returns (line 198). -/
structure StepEnv where
  intervalElapsed : Bool
  blockCount : Nat
  consumeError : Option ConsumeError
deriving Repr, DecidableEq

/-- The mutable local state of the dispatch-loop goroutine (sorter.go lines
140-142): lastSentResolvedTs and lastCRTs.  lastSendResolvedTsTime is
wall-clock time and is abstracted by StepEnv.intervalElapsed. -/
structure SorterState where
  lastSentResolvedTs : Nat
  lastCRTs : Nat
deriving Repr, DecidableEq

/-- One observable effect of the dispatch loop.  A resolved-marker
timestamp sent downstream is recorded as resolvedMarker, whether it is the
actor-mode BarrierMessage (lines 176, 191), the legacy-mode resolved
PolymorphicEventMessage (lines 178, 193), or the forwarded resolved event
of the OpTypeResolved branch (lines 232-237).  toMounter is the hand-off of
a data event to the mounter (line 221); dataEvent is its forwarding to the
output destination (lines 232-237); stopMsg is the actor-mode stop message
and thrown the legacy-mode Throw on a fatal Consume error (lines 204-209). -/
inductive Emitted where
  | resolvedMarker (ts : Nat)
  | toMounter (commitTs : Nat)
  | dataEvent (commitTs : Nat)
  | stopMsg
  | thrown
deriving Repr, DecidableEq

/-- The flow-control block callback (sorter.go lines 184-197): if
lastCRTs > lastSentResolvedTs, send a resolved marker at lastCRTs and
record it as sent; otherwise do nothing. -/
def blockCallback (s : SorterState) : List Emitted × SorterState :=
  if s.lastCRTs > s.lastSentResolvedTs then
    ([Emitted.resolvedMarker s.lastCRTs], { s with lastSentResolvedTs := s.lastCRTs })
  else
    ([], s)

/-- Consume may invoke the block callback any number of times while the
quota is exhausted; runCallbacks iterates blockCallback that many times. -/
def runCallbacks : Nat → SorterState → List Emitted × SorterState
  | 0, s => ([], s)
  | n + 1, s =>
    let p := blockCallback s
    let q := runCallbacks n p.2
    (p.1 ++ q.1, q.2)

/-- The resolved-ts interpolation block (sorter.go lines 165-181): if the
interval has elapsed and lastCRTs > lastSentResolvedTs and
commitTs > lastCRTs, send a resolved marker at lastCRTs and record it. -/
def interpolate (env : StepEnv) (commitTs : Nat) (s : SorterState) :
    List Emitted × SorterState :=
  if env.intervalElapsed then
    if s.lastCRTs > s.lastSentResolvedTs ∧ commitTs > s.lastCRTs then
      ([Emitted.resolvedMarker s.lastCRTs], { s with lastSentResolvedTs := s.lastCRTs })
    else ([], s)
  else ([], s)

/-- Processing of a data event (sorter.go lines 162-222 plus the shared
forwarding block 232-237): interpolation, then Consume (with its block
callbacks), then the error branches of lines 198-212 — on
ErrFlowControllerAborted the loop returns quietly, on any other error it
sends a stop message (actor mode) or throws (legacy mode) and returns —
and on success lastCRTs is set to the event's commit-ts and the event is
handed to the mounter and forwarded.  The returned Option SorterState is
none when the loop terminates.  The size argument is computed at line 163
and consumed only by the external flow controller. -/
def stepData (isActor : Bool) (env : StepEnv) (commitTs size : Nat)
    (s : SorterState) : List Emitted × Option SorterState :=
  let p := interpolate env commitTs s
  let q := runCallbacks env.blockCount p.2
  match env.consumeError with
  | some ConsumeError.aborted => (p.1 ++ q.1, none)
  | some ConsumeError.otherErr =>
      (p.1 ++ q.1 ++ [if isActor then Emitted.stopMsg else Emitted.thrown], none)
  | none =>
      (p.1 ++ q.1 ++ [Emitted.toMounter commitTs, Emitted.dataEvent commitTs],
       some { q.2 with lastCRTs := commitTs })

/-- Processing of a sorter-supplied resolved marker (sorter.go lines
223-237): a marker older than lastSentResolvedTs is dropped (continue);
otherwise lastSentResolvedTs is updated and the marker forwarded. -/
def stepResolved (ts : Nat) (s : SorterState) : List Emitted × Option SorterState :=
  if ts < s.lastSentResolvedTs then ([], some s)
  else ([Emitted.resolvedMarker ts], some { s with lastSentResolvedTs := ts })

/-- A message read from the sorter's output channel (sorter.go line 154):
either a data event carrying its commit-ts and approximate size, or a
resolved marker carrying its timestamp. -/
inductive SorterMsg where
  | data (commitTs size : Nat)
  | resolved (ts : Nat)
deriving Repr, DecidableEq

/-- One iteration of the dispatch loop on a sorter output message. -/
def sorterStep (isActor : Bool) (env : StepEnv) (msg : SorterMsg)
    (s : SorterState) : List Emitted × Option SorterState :=
  match msg with
  | SorterMsg.data c sz => stepData isActor env c sz s
  | SorterMsg.resolved t => stepResolved t s

/-- The dispatch loop run over a list of sorter output messages, each with
its environment inputs; the loop stops early when a step terminates it. -/
def sorterRun (isActor : Bool) :
    List (StepEnv × SorterMsg) → SorterState → List Emitted × Option SorterState
  | [], s => ([], some s)
  | (env, m) :: rest, s =>
    match sorterStep isActor env m s with
    | (out, none) => (out, none)
    | (out, some s1) =>
      let q := sorterRun isActor rest s1
      (out ++ q.1, q.2)

/-- The dispatch loop's initial local state (sorter.go lines 140-142):
lastSentResolvedTs = 0 and lastCRTs = 0. -/
def initialSorterState : SorterState := ⟨0, 0⟩

/-- The subsequence of resolved-marker timestamps in an effect trace. -/
def resolvedTrace (out : List Emitted) : List Nat :=
  out.filterMap fun e =>
    match e with
    | Emitted.resolvedMarker t => some t
    | _ => none

/-! ### Node-level state: newSorterNode, TryHandleDataMessage, ResolvedTs -/

/-- The sorterNode fields that TryHandleDataMessage and ResolvedTs touch
(sorter.go lines 43-64): the resolvedTs watermark plus the identifying
fields. -/
structure NodeState where
  resolvedTs : Nat
  tableID : Int
  tableName : String
deriving Repr, DecidableEq

/-- newSorterNode (sorter.go lines 66-78): the resolvedTs field is
initialised to startTs. -/
def newSorterNode (tableName : String) (tableID : Int) (startTs : Nat) : NodeState :=
  { resolvedTs := startTs, tableID := tableID, tableName := tableName }

/-- ResolvedTs (sorter.go lines 284-286). -/
def ResolvedTs (s : NodeState) : Nat := s.resolvedTs

/-- The payload of a polymorphic-event message as seen by
TryHandleDataMessage (sorter.go lines 253-266): a RawKV of OpTypeResolved,
a RawKV of any other op type, or a nil RawKV. -/
inductive PEvent where
  | rawResolved (crts : Nat)
  | rawOther (crts : Nat)
  | noRaw
deriving Repr, DecidableEq

/-- A pipeline message (sorter.go line 252): a polymorphic event or any
other message type (handled by the default branch at line 274). -/
inductive PMsg where
  | polymorphic (ev : PEvent)
  | otherMsg
deriving Repr, DecidableEq

/-- Outcome of TryHandleDataMessage on the node state: either the log.Panic
of lines 260-263 with its diagnostic fields (tableID, the new resolvedTs
and the old resolvedTs), or the updated node state.  The hand-off of the
event to the external sorter (lines 267-272) does not touch node state and
is not modelled. -/
inductive HandleOutcome where
  | panicked (tableID : Int) (resolvedTs oldResolvedTs : Nat)
  | handled (s : NodeState)
deriving Repr, DecidableEq

/-- TryHandleDataMessage (sorter.go lines 251-276), restricted to its
effect on the node state: a puller resolved event swaps resolvedTs to the
new value and panics when the old value was greater (lines 257-265); every
other message leaves the node state unchanged. -/
def tryHandleDataMessage (s : NodeState) (m : PMsg) : HandleOutcome :=
  match m with
  | PMsg.polymorphic ev =>
    match ev with
    | PEvent.rawResolved crts =>
        if s.resolvedTs > crts then
          HandleOutcome.panicked s.tableID crts s.resolvedTs
        else
          HandleOutcome.handled { s with resolvedTs := crts }
    | PEvent.rawOther _ => HandleOutcome.handled s
    | PEvent.noRaw => HandleOutcome.handled s
  | PMsg.otherMsg => HandleOutcome.handled s

/-- Whether a message is a puller resolved event (RawKV of OpTypeResolved). -/
def isPullerResolved : PMsg → Bool
  | PMsg.polymorphic (PEvent.rawResolved _) => true
  | _ => false

/-- Folding tryHandleDataMessage over a message list; none records a panic. -/
def handleAll (s : NodeState) : List PMsg → Option NodeState
  | [] => some s
  | m :: ms =>
    match tryHandleDataMessage s m with
    | HandleOutcome.handled s1 => handleAll s1 ms
    | HandleOutcome.panicked _ _ _ => none

/-! ### Sort-engine selection (sorter.go lines 94-115) -/

/-- The configured sort engine (info.Info.Engine): one of the recognised
constants model.SortInMemory, model.SortUnified, model.SortInFile, or any
other string. -/
inductive SortEngineKind where
  | memory
  | unified
  | inFile
  | otherEngine (name : String)
deriving Repr, DecidableEq

/-- Errors the engine-selection switch can return: a failed
unified.CheckDir (line 105), a failed unified.NewUnifiedSorter (line 109),
or cerror.ErrUnknownSortEngine from the default branch (line 114). -/
inductive StartError where
  | dirCheckFailed
  | unifiedCreateFailed
  | unknownSortEngine (name : String)
deriving Repr, DecidableEq

/-- Which EventSorter implementation was constructed. -/
inductive SorterChoice where
  | memorySorter
  | unifiedSorter
deriving Repr, DecidableEq

/-- The engine-selection switch of StartActorNode (sorter.go lines 94-115).
The outcomes of the external calls unified.CheckDir and
unified.NewUnifiedSorter are inputs.  An error return here happens before
any of the eg.Go activities of lines 119-240 is launched. -/
def selectSorter (engine : SortEngineKind) (dirOk createOk : Bool) :
    Except StartError SorterChoice :=
  match engine with
  | SortEngineKind.memory => Except.ok SorterChoice.memorySorter
  | SortEngineKind.unified | SortEngineKind.inFile =>
      if dirOk then
        if createOk then Except.ok SorterChoice.unifiedSorter
        else Except.error StartError.unifiedCreateFailed
      else Except.error StartError.dirCheckFailed
  | SortEngineKind.otherEngine name => Except.error (StartError.unknownSortEngine name)

/-! ## Part II: causality detector and relay (DM syncer)

The implementation files of the causality detector
(dm/syncer/causality.go) and of DML causality-key generation are not among
the provided sources; only their tests are (TestDetectConflict,
TestCasuality and TestCasualityWithPrefixIndex).  The definitions below
are therefore modelled from the specification (spec sections 3, 4.2, 4.3
and 8) and checked against the expectations recorded in those tests. -/

/-- A string-keyed map of strings, represented as an association list in
which the first binding of a key is its value.  Used both for the
causality relation table (key to root) and for a row (column name to
value). -/
abbrev StrMap : Type := List (String × String)

/-- The causality relation table: key string to root string. -/
abbrev Relations : Type := StrMap

/-- A row: column name to printed column value. -/
abbrev Row : Type := StrMap

/-- Lookup in a StrMap: the value of the first binding of the key. -/
def lookupRel : StrMap → String → Option String
  | [], _ => none
  | (k, v) :: r, key => if key = k then some v else lookupRel r key

/-- Map update: bind key to value, removing any previous binding. -/
def insertRel (r : StrMap) (k v : String) : StrMap :=
  (k, v) :: r.filter fun p => p.1 != k

/-- Modelled from the spec: "for each key already present in the relation
table, collect its root" (spec 4.2) — the roots of the keys of the list
that are present in the relation table, in list order. -/
def collectRoots (r : Relations) (keys : List String) : List String :=
  keys.filterMap (lookupRel r)

/-- Modelled from the spec: HasConflict / detectConflict (spec 4.2) —
collect the roots of the keys already present; report a conflict exactly
when the collected roots are not all equal.  Keys not yet present
contribute no root.  The implementation (dm/syncer/causality.go) is not
among the provided sources. -/
def detectConflict (r : Relations) (keys : List String) : Bool :=
  match collectRoots r keys with
  | [] => false
  | root :: rest => rest.any fun x => x != root

/-- Modelled from the spec: the root Add chooses (spec 4.2) — "the root of
any key in the set that is already present, or (if none are present) the
first key in the set"; following the observed behaviour the first present
key's root is preferred. -/
def chooseRoot (r : Relations) (keys : List String) : Option String :=
  match collectRoots r keys with
  | root :: _ => some root
  | [] => keys.head?

/-- Modelled from the spec: Add / add (spec 4.2) — "choose a root ... and
map every key in the set to that root".  The implementation
(dm/syncer/causality.go) is not among the provided sources. -/
def add (r : Relations) (keys : List String) : Relations :=
  match chooseRoot r keys with
  | none => r
  | some root => keys.foldl (fun acc k => insertRel acc k root) r

/-- Modelled from the spec: Reset / reset (spec 4.2) — "clears all
relations". -/
def reset : Relations := []

/-! ### Causality keys (spec section 3, "DML Job") -/

/-- One column of a unique/primary index: its name and, for a prefix
index, the truncation length (spec 3: "a prefix index contributes a
truncated value"). -/
structure IndexCol where
  name : String
  prefixLen : Option Nat
deriving Repr, DecidableEq

/-- A unique/primary index: its column list. -/
abbrev IndexDef : Type := List IndexCol

/-- The value a column contributes to a key: the full printed value, or
its prefix of the index's truncation length. -/
def truncVal (v : String) : Option Nat → String
  | none => v
  | some l => v.take l

/-- The printed value of a column of a row. -/
def colValue (row : Row) (c : String) : String := (lookupRel row c).getD ""

/-- Modelled from the spec: the causality key of one unique/primary index
for one row (spec 3) — built by concatenating the index's (possibly
truncated) column values; each column contributes its value followed by a
dot, the column name and a dot, matching the literal keys recorded in
TestCasualityWithPrefixIndex (for example "123.c1."). -/
def genIndexKey (row : Row) (idx : IndexDef) : String :=
  idx.foldl
    (fun acc c => acc ++ truncVal (colValue row c.name) c.prefixLen ++ "." ++ c.name ++ ".")
    ""

/-- The key set of a row: one key per unique/primary index of the table. -/
def rowKeys (indexes : List IndexDef) (row : Row) : List String :=
  indexes.map (genIndexKey row)

/-- Job kinds appearing in the relay tests: the three DML kinds and the
synthetic conflict marker. -/
inductive OpType where
  | insert
  | update
  | del
  | conflict
deriving Repr, DecidableEq

/-- The row content of a DML job: old row values (update/delete) and new
row values (insert/update). -/
structure DML where
  oldRow : Option Row
  newRow : Option Row
deriving Repr, DecidableEq

/-- A job on the relay queues: its kind, plus its DML content (none for
the synthetic conflict marker). -/
structure Job where
  tp : OpType
  dml : Option DML
deriving Repr, DecidableEq

/-- An ordinary DML job. -/
def dmlJob (tp : OpType) (oldRow newRow : Option Row) : Job :=
  ⟨tp, some ⟨oldRow, newRow⟩⟩

/-- The synthetic conflict-marker job. -/
def conflictJob : Job := ⟨OpType.conflict, none⟩

/-- Modelled from the spec: the key set of a job (spec 4.3 step 1) —
"old-value keys for delete, new-value keys for insert, union of old- and
new-value keys for update". -/
def jobKeys (indexes : List IndexDef) (j : Job) : List String :=
  match j.dml with
  | none => []
  | some d =>
    match j.tp with
    | OpType.insert => rowKeys indexes (d.newRow.getD [])
    | OpType.del => rowKeys indexes (d.oldRow.getD [])
    | OpType.update =>
        rowKeys indexes (d.oldRow.getD []) ++ rowKeys indexes (d.newRow.getD [])
    | OpType.conflict => []

/-- Modelled from the spec: one step of the Causality Relay (spec 4.3 and
8.6) — derive the job's key set; if it conflicts, emit the synthetic
conflict marker and reset the relation table; then add the keys and
forward the original job (the end-to-end scenario of spec 8.6 requires the
conflicting job itself to follow the marker downstream).  The
implementation is not among the provided sources. -/
def relayStep (indexes : List IndexDef) (r : Relations) (j : Job) :
    List Job × Relations :=
  let keys := jobKeys indexes j
  if detectConflict r keys then
    ([conflictJob, j], add reset keys)
  else
    ([j], add r keys)

/-- The relay run over an inbound job list, collecting the outbound jobs. -/
def relayRun (indexes : List IndexDef) :
    Relations → List Job → List Job × Relations
  | r, [] => ([], r)
  | r, j :: js =>
    let p := relayStep indexes r j
    let q := relayRun indexes p.2 js
    (p.1 ++ q.1, q.2)

/-! ### The concrete relay scenario of TestCasuality (src/unnamed/part_001
lines 57-135): table tb(a int primary key, b int unique). -/

/-- The unique/primary indexes of test table tb: primary key a, unique b. -/
def tbIndexes : List IndexDef := [[⟨"a", none⟩], [⟨"b", none⟩]]

/-- A row of test table tb. -/
def tbRow (a b : String) : Row := [("a", a), ("b", b)]

/-- The inbound jobs of TestCasuality: insert(1,2), insert(2,3),
update((2,3) to (3,4)), delete(1,2), insert(1,3). -/
def tbJobs : List Job :=
  [dmlJob OpType.insert none (some (tbRow "1" "2")),
   dmlJob OpType.insert none (some (tbRow "2" "3")),
   dmlJob OpType.update (some (tbRow "2" "3")) (some (tbRow "3" "4")),
   dmlJob OpType.del (some (tbRow "1" "2")) none,
   dmlJob OpType.insert none (some (tbRow "1" "3"))]

/-- A trace segment produced while lastSentResolvedTs moved from lo to hi:
its resolved-marker timestamps are sorted and lie between lo and hi. -/
def Segment (lo hi : Nat) (out : List Emitted) : Prop :=
  lo ≤ hi ∧ (resolvedTrace out).Sorted (· ≤ ·) ∧
    ∀ t ∈ resolvedTrace out, lo ≤ t ∧ t ≤ hi

/-- A trace segment with a lower bound only (used when the loop
terminates inside the step). -/
def SegmentFrom (lo : Nat) (out : List Emitted) : Prop :=
  (resolvedTrace out).Sorted (· ≤ ·) ∧ ∀ t ∈ resolvedTrace out, lo ≤ t

/-! ## Helper lemmas: monotonicity of the forwarded resolved-marker trace -/

theorem resolvedTrace_append (o1 o2 : List Emitted) :
    resolvedTrace (o1 ++ o2) = resolvedTrace o1 ++ resolvedTrace o2 :=
  List.filterMap_append o1 o2 _

theorem Segment.toFrom {lo hi : Nat} {out : List Emitted}
    (h : Segment lo hi out) : SegmentFrom lo out :=
  ⟨h.2.1, fun t ht => (h.2.2 t ht).1⟩

theorem segment_append {lo m hi : Nat} {o1 o2 : List Emitted}
    (h1 : Segment lo m o1) (h2 : Segment m hi o2) : Segment lo hi (o1 ++ o2) := by
  obtain ⟨hlm, s1, b1⟩ := h1
  obtain ⟨hmh, s2, b2⟩ := h2
  refine ⟨le_trans hlm hmh, ?_, ?_⟩
  · rw [resolvedTrace_append]
    exact List.pairwise_append.mpr
      ⟨s1, s2, fun a ha b hb => le_trans (b1 a ha).2 (b2 b hb).1⟩
  · intro t ht
    rw [resolvedTrace_append, List.mem_append] at ht
    rcases ht with ht | ht
    · exact ⟨(b1 t ht).1, le_trans (b1 t ht).2 hmh⟩
    · exact ⟨le_trans hlm (b2 t ht).1, (b2 t ht).2⟩

theorem segment_append_from {lo m : Nat} {o1 o2 : List Emitted}
    (h1 : Segment lo m o1) (h2 : SegmentFrom m o2) : SegmentFrom lo (o1 ++ o2) := by
  obtain ⟨hlm, s1, b1⟩ := h1
  obtain ⟨s2, b2⟩ := h2
  constructor
  · rw [resolvedTrace_append]
    exact List.pairwise_append.mpr
      ⟨s1, s2, fun a ha b hb => le_trans (b1 a ha).2 (b2 b hb)⟩
  · intro t ht
    rw [resolvedTrace_append, List.mem_append] at ht
    rcases ht with ht | ht
    · exact (b1 t ht).1
    · exact le_trans hlm (b2 t ht)

theorem segment_refl (lo : Nat) {out : List Emitted}
    (h : resolvedTrace out = []) : Segment lo lo out := by
  refine ⟨le_refl lo, ?_, ?_⟩ <;> rw [h]
  · exact List.Pairwise.nil
  · intro t ht
    exact absurd ht (List.not_mem_nil t)

theorem blockCallback_segment (s : SorterState) :
    Segment s.lastSentResolvedTs (blockCallback s).2.lastSentResolvedTs
      (blockCallback s).1 := by
  unfold blockCallback
  split
  · rename_i h
    refine ⟨le_of_lt h, ?_, ?_⟩
    · exact List.pairwise_singleton _ _
    · intro t ht
      simp only [resolvedTrace, List.filterMap] at ht
      simp only [List.mem_singleton] at ht
      subst ht
      exact ⟨le_of_lt h, le_refl _⟩
  · exact segment_refl _ rfl

theorem runCallbacks_segment (n : Nat) (s : SorterState) :
    Segment s.lastSentResolvedTs (runCallbacks n s).2.lastSentResolvedTs
      (runCallbacks n s).1 := by
  induction n generalizing s with
  | zero => exact segment_refl _ rfl
  | succ k ih =>
    simp only [runCallbacks]
    exact segment_append (blockCallback_segment s) (ih (blockCallback s).2)

theorem interpolate_segment (env : StepEnv) (c : Nat) (s : SorterState) :
    Segment s.lastSentResolvedTs (interpolate env c s).2.lastSentResolvedTs
      (interpolate env c s).1 := by
  unfold interpolate
  split
  · split
    · rename_i h
      refine ⟨le_of_lt h.1, ?_, ?_⟩
      · exact List.pairwise_singleton _ _
      · intro t ht
        simp only [resolvedTrace, List.filterMap] at ht
        simp only [List.mem_singleton] at ht
        subst ht
        exact ⟨le_of_lt h.1, le_refl _⟩
    · exact segment_refl _ rfl
  · exact segment_refl _ rfl

theorem stepData_eq_aborted (isActor : Bool) (env : StepEnv) (c sz : Nat)
    (s : SorterState) (h : env.consumeError = some ConsumeError.aborted) :
    stepData isActor env c sz s =
      ((interpolate env c s).1 ++
        (runCallbacks env.blockCount (interpolate env c s).2).1, none) := by
  unfold stepData
  rw [h]

theorem stepData_eq_otherErr (isActor : Bool) (env : StepEnv) (c sz : Nat)
    (s : SorterState) (h : env.consumeError = some ConsumeError.otherErr) :
    stepData isActor env c sz s =
      ((interpolate env c s).1 ++
        (runCallbacks env.blockCount (interpolate env c s).2).1 ++
        [if isActor then Emitted.stopMsg else Emitted.thrown], none) := by
  unfold stepData
  rw [h]

theorem stepData_eq_ok (isActor : Bool) (env : StepEnv) (c sz : Nat)
    (s : SorterState) (h : env.consumeError = none) :
    stepData isActor env c sz s =
      ((interpolate env c s).1 ++
        (runCallbacks env.blockCount (interpolate env c s).2).1 ++
        [Emitted.toMounter c, Emitted.dataEvent c],
       some { (runCallbacks env.blockCount (interpolate env c s).2).2 with
                lastCRTs := c }) := by
  unfold stepData
  rw [h]

theorem trace_extra_nil (c : Nat) :
    resolvedTrace [Emitted.toMounter c, Emitted.dataEvent c] = [] := rfl

theorem trace_stop_nil (isActor : Bool) :
    resolvedTrace [if isActor then Emitted.stopMsg else Emitted.thrown] = [] := by
  cases isActor <;> rfl

theorem stepData_segment_some (isActor : Bool) (env : StepEnv) (c sz : Nat)
    (s s1 : SorterState) (h : (stepData isActor env c sz s).2 = some s1) :
    Segment s.lastSentResolvedTs s1.lastSentResolvedTs
      (stepData isActor env c sz s).1 := by
  have hseg : Segment s.lastSentResolvedTs
      (runCallbacks env.blockCount (interpolate env c s).2).2.lastSentResolvedTs
      ((interpolate env c s).1 ++ (runCallbacks env.blockCount (interpolate env c s).2).1) :=
    segment_append (interpolate_segment env c s)
      (runCallbacks_segment env.blockCount (interpolate env c s).2)
  cases henv : env.consumeError with
  | none =>
    rw [stepData_eq_ok isActor env c sz s henv] at h ⊢
    cases h
    exact segment_append hseg (segment_refl _ (trace_extra_nil c))
  | some e =>
    cases e
    · rw [stepData_eq_aborted isActor env c sz s henv] at h
      cases h
    · rw [stepData_eq_otherErr isActor env c sz s henv] at h
      cases h

theorem stepData_segment_none (isActor : Bool) (env : StepEnv) (c sz : Nat)
    (s : SorterState) :
    SegmentFrom s.lastSentResolvedTs (stepData isActor env c sz s).1 := by
  have hseg : Segment s.lastSentResolvedTs
      (runCallbacks env.blockCount (interpolate env c s).2).2.lastSentResolvedTs
      ((interpolate env c s).1 ++ (runCallbacks env.blockCount (interpolate env c s).2).1) :=
    segment_append (interpolate_segment env c s)
      (runCallbacks_segment env.blockCount (interpolate env c s).2)
  cases henv : env.consumeError with
  | none =>
    rw [stepData_eq_ok isActor env c sz s henv]
    exact (segment_append hseg (segment_refl _ (trace_extra_nil c))).toFrom
  | some e =>
    cases e
    · rw [stepData_eq_aborted isActor env c sz s henv]
      exact hseg.toFrom
    · rw [stepData_eq_otherErr isActor env c sz s henv]
      exact (segment_append hseg (segment_refl _ (trace_stop_nil isActor))).toFrom

theorem trace_nil : resolvedTrace [] = [] := rfl

theorem trace_marker (t : Nat) :
    resolvedTrace [Emitted.resolvedMarker t] = [t] := rfl

theorem stepResolved_eq_drop (ts : Nat) (s : SorterState)
    (h : ts < s.lastSentResolvedTs) : stepResolved ts s = ([], some s) := by
  unfold stepResolved
  rw [if_pos h]

theorem stepResolved_eq_fwd (ts : Nat) (s : SorterState)
    (h : ¬ ts < s.lastSentResolvedTs) :
    stepResolved ts s =
      ([Emitted.resolvedMarker ts], some { s with lastSentResolvedTs := ts }) := by
  unfold stepResolved
  rw [if_neg h]

theorem sorterStep_eq_data (isActor : Bool) (env : StepEnv) (c sz : Nat)
    (s : SorterState) :
    sorterStep isActor env (SorterMsg.data c sz) s = stepData isActor env c sz s := rfl

theorem sorterStep_eq_resolved (isActor : Bool) (env : StepEnv) (t : Nat)
    (s : SorterState) :
    sorterStep isActor env (SorterMsg.resolved t) s = stepResolved t s := rfl

theorem sorterStep_segment_some (isActor : Bool) (env : StepEnv) (m : SorterMsg)
    (s s1 : SorterState) (h : (sorterStep isActor env m s).2 = some s1) :
    Segment s.lastSentResolvedTs s1.lastSentResolvedTs
      (sorterStep isActor env m s).1 := by
  cases m with
  | data c sz => exact stepData_segment_some isActor env c sz s s1 h
  | resolved t =>
    by_cases ht : t < s.lastSentResolvedTs
    · rw [sorterStep_eq_resolved, stepResolved_eq_drop t s ht] at h ⊢
      have h2 : some s = some s1 := h
      obtain rfl := Option.some.inj h2
      exact segment_refl _ trace_nil
    · rw [sorterStep_eq_resolved, stepResolved_eq_fwd t s ht] at h ⊢
      have h2 : some { s with lastSentResolvedTs := t } = some s1 := h
      obtain rfl := Option.some.inj h2
      have hle : s.lastSentResolvedTs ≤ t := Nat.not_lt.mp ht
      refine ⟨hle, ?_, ?_⟩
      · rw [trace_marker]
        exact List.pairwise_singleton _ _
      · intro u hu
        rw [trace_marker, List.mem_singleton] at hu
        subst hu
        exact ⟨hle, le_refl _⟩

theorem sorterStep_segment_none (isActor : Bool) (env : StepEnv) (m : SorterMsg)
    (s : SorterState) :
    SegmentFrom s.lastSentResolvedTs (sorterStep isActor env m s).1 := by
  cases m with
  | data c sz => exact stepData_segment_none isActor env c sz s
  | resolved t =>
    by_cases ht : t < s.lastSentResolvedTs
    · rw [sorterStep_eq_resolved, stepResolved_eq_drop t s ht]
      exact (segment_refl s.lastSentResolvedTs trace_nil).toFrom
    · rw [sorterStep_eq_resolved, stepResolved_eq_fwd t s ht]
      have hle : s.lastSentResolvedTs ≤ t := Nat.not_lt.mp ht
      refine ⟨?_, ?_⟩
      · rw [trace_marker]
        exact List.pairwise_singleton _ _
      · intro u hu
        rw [trace_marker, List.mem_singleton] at hu
        subst hu
        exact hle

theorem sorterRun_segment (isActor : Bool) :
    ∀ (inputs : List (StepEnv × SorterMsg)) (s : SorterState),
      SegmentFrom s.lastSentResolvedTs (sorterRun isActor inputs s).1 ∧
      ∀ s1, (sorterRun isActor inputs s).2 = some s1 →
        Segment s.lastSentResolvedTs s1.lastSentResolvedTs
          (sorterRun isActor inputs s).1 := by
  intro inputs
  induction inputs with
  | nil =>
    intro s
    constructor
    · exact (segment_refl s.lastSentResolvedTs trace_nil).toFrom
    · intro s1 h
      have h2 : some s = some s1 := h
      obtain rfl := Option.some.inj h2
      exact segment_refl _ trace_nil
  | cons p rest ih =>
    intro s
    obtain ⟨env, m⟩ := p
    rcases hstep : sorterStep isActor env m s with ⟨out, r⟩
    cases r with
    | none =>
      have hout : (sorterStep isActor env m s).1 = out := by rw [hstep]
      constructor
      · simp only [sorterRun, hstep]
        have := sorterStep_segment_none isActor env m s
        rwa [hout] at this
      · intro s1 h
        simp only [sorterRun, hstep] at h
        exact Option.noConfusion h
    | some smid =>
      have hout : (sorterStep isActor env m s).1 = out := by rw [hstep]
      have hsome : (sorterStep isActor env m s).2 = some smid := by rw [hstep]
      have hseg : Segment s.lastSentResolvedTs smid.lastSentResolvedTs out := by
        have := sorterStep_segment_some isActor env m s smid hsome
        rwa [hout] at this
      constructor
      · simp only [sorterRun, hstep]
        exact segment_append_from hseg (ih smid).1
      · intro s1 h
        simp only [sorterRun, hstep] at h ⊢
        exact segment_append hseg ((ih smid).2 s1 h)

/-- Claim C1: for every execution of the dispatch loop on one table —
any mode, any sorter-output message sequence, any environment behaviour,
from any loop state (in particular the initial one) — the sequence of
resolved-marker timestamps it forwards downstream (by interpolation, by
the flow-control block callback, or by passing through a sorter-supplied
resolved marker) is non-decreasing. -/
theorem dispatch_resolved_monotone (isActor : Bool)
    (inputs : List (StepEnv × SorterMsg)) (s : SorterState) :
    (resolvedTrace (sorterRun isActor inputs s).1).Sorted (· ≤ ·) :=
  ((sorterRun_segment isActor inputs s).1).1

/-! ## Helper lemmas: interpolation behaviour of a data-event step -/

theorem interpolate_noop (env : StepEnv) (c : Nat) (s : SorterState)
    (h : ¬ s.lastCRTs > s.lastSentResolvedTs) : interpolate env c s = ([], s) := by
  unfold interpolate
  split
  · rw [if_neg]
    intro hc
    exact h hc.1
  · rfl

theorem blockCallback_noop (s : SorterState)
    (h : ¬ s.lastCRTs > s.lastSentResolvedTs) : blockCallback s = ([], s) := by
  unfold blockCallback
  rw [if_neg h]

theorem runCallbacks_noop (n : Nat) (s : SorterState)
    (h : ¬ s.lastCRTs > s.lastSentResolvedTs) : runCallbacks n s = ([], s) := by
  induction n with
  | zero => rfl
  | succ k ih => simp [runCallbacks, blockCallback_noop s h, ih]

theorem stepData_interpolates (isActor : Bool) (env : StepEnv) (c sz : Nat)
    (s : SorterState) (hi : env.intervalElapsed = true)
    (herr : env.consumeError = none)
    (h1 : s.lastCRTs > s.lastSentResolvedTs) (h2 : c > s.lastCRTs) :
    stepData isActor env c sz s =
      ([Emitted.resolvedMarker s.lastCRTs, Emitted.toMounter c, Emitted.dataEvent c],
       some ⟨s.lastCRTs, c⟩) := by
  have hintp : interpolate env c s =
      ([Emitted.resolvedMarker s.lastCRTs],
       { s with lastSentResolvedTs := s.lastCRTs }) := by
    unfold interpolate
    rw [hi, if_pos rfl, if_pos ⟨h1, h2⟩]
  have hcb : runCallbacks env.blockCount { s with lastSentResolvedTs := s.lastCRTs } =
      ([], { s with lastSentResolvedTs := s.lastCRTs }) :=
    runCallbacks_noop _ _ (lt_irrefl _)
  rw [stepData_eq_ok isActor env c sz s herr, hintp, hcb]
  simp

/-- Claim C4: when the dispatch loop reads a data event with commit-ts c,
more than the interpolation interval has elapsed, and the previously-seen
commit-ts p = lastCRTs satisfies p > lastSentResolvedTs and c > p, then
(first conjunct) before applying flow control the stage sends a resolved
marker at exactly p, records p as lastSentResolvedTs, and the step
forwards nothing else resolved; consequently (second conjunct) a run of
the loop from the initial state over two data events with strictly
increasing positive commit timestamps and no sorter resolved marker,
where the interval has elapsed at the second event, forwards exactly one
resolved marker, at the earlier commit-ts p (which is at most the most
recent completed commit-ts). -/
theorem interpolation_correct :
    (∀ (isActor : Bool) (env : StepEnv) (c sz : Nat) (s : SorterState),
        env.intervalElapsed = true → env.consumeError = none →
        s.lastCRTs > s.lastSentResolvedTs → c > s.lastCRTs →
        stepData isActor env c sz s =
          ([Emitted.resolvedMarker s.lastCRTs, Emitted.toMounter c,
            Emitted.dataEvent c],
           some ⟨s.lastCRTs, c⟩)) ∧
    (∀ (isActor : Bool) (env1 env2 : StepEnv) (p c sz1 sz2 : Nat),
        0 < p → p < c →
        env1.consumeError = none → env2.consumeError = none →
        env2.intervalElapsed = true →
        resolvedTrace
          (sorterRun isActor
            [(env1, SorterMsg.data p sz1), (env2, SorterMsg.data c sz2)]
            initialSorterState).1 = [p]) := by
  constructor
  · intro isActor env c sz s hi herr h1 h2
    exact stepData_interpolates isActor env c sz s hi herr h1 h2
  · intro isActor env1 env2 p c sz1 sz2 hp hpc herr1 herr2 hi2
    have hstep1 : sorterStep isActor env1 (SorterMsg.data p sz1) initialSorterState =
        ([Emitted.toMounter p, Emitted.dataEvent p], some ⟨0, p⟩) := by
      rw [sorterStep_eq_data, stepData_eq_ok _ _ _ _ _ herr1,
        interpolate_noop env1 p initialSorterState (by decide),
        runCallbacks_noop env1.blockCount initialSorterState (by decide)]
      simp [initialSorterState]
    have hstep2 : sorterStep isActor env2 (SorterMsg.data c sz2) ⟨0, p⟩ =
        ([Emitted.resolvedMarker p, Emitted.toMounter c, Emitted.dataEvent c],
         some ⟨p, c⟩) := by
      rw [sorterStep_eq_data]
      exact stepData_interpolates isActor env2 c sz2 ⟨0, p⟩ hi2 herr2 hp hpc
    simp only [sorterRun, hstep1, hstep2]
    simp [resolvedTrace]

/-- Concrete instance of claim C4's theorem. -/
theorem interpolation_correct_witness :
    stepData true ⟨true, 0, none⟩ 7 1 ⟨1, 3⟩ =
      ([Emitted.resolvedMarker 3, Emitted.toMounter 7, Emitted.dataEvent 7],
       some ⟨3, 7⟩) ∧
    resolvedTrace
      (sorterRun false
        [(⟨false, 0, none⟩, SorterMsg.data 2 1), (⟨true, 0, none⟩, SorterMsg.data 5 1)]
        initialSorterState).1 = [2] :=
  ⟨interpolation_correct.1 true ⟨true, 0, none⟩ 7 1 ⟨1, 3⟩ rfl rfl (by decide) (by decide),
   interpolation_correct.2 false ⟨false, 0, none⟩ ⟨true, 0, none⟩ 2 5 1 1
     (by decide) (by decide) rfl rfl rfl⟩

/-- Claim C5: when flow-control Consume blocks and invokes the block
callback, the callback sends a resolved marker carrying the
previously-seen commit-ts lastCRTs exactly when lastCRTs is strictly
greater than lastSentResolvedTs, in which case it also records lastCRTs
as sent; otherwise it sends nothing and changes no state. -/
theorem block_callback_contract (s : SorterState) :
    (s.lastCRTs > s.lastSentResolvedTs →
      blockCallback s =
        ([Emitted.resolvedMarker s.lastCRTs],
         { s with lastSentResolvedTs := s.lastCRTs })) ∧
    (¬ s.lastCRTs > s.lastSentResolvedTs → blockCallback s = ([], s)) := by
  constructor
  · intro h
    unfold blockCallback
    rw [if_pos h]
  · exact blockCallback_noop s

/-- Concrete instance of claim C5's theorem. -/
theorem block_callback_contract_witness :
    blockCallback ⟨3, 5⟩ = ([Emitted.resolvedMarker 5], ⟨5, 5⟩) ∧
    blockCallback ⟨5, 3⟩ = ([], ⟨5, 3⟩) :=
  ⟨(block_callback_contract ⟨3, 5⟩).1 (by decide),
   (block_callback_contract ⟨5, 3⟩).2 (by decide)⟩

/-- Claim C6: a sorter-supplied resolved marker with timestamp t strictly
below lastSentResolvedTs is silently discarded with no state change and
nothing forwarded; otherwise lastSentResolvedTs is updated to t and the
marker is forwarded (the same forwarding happens in both dispatch modes). -/
theorem stale_marker_contract (t : Nat) (s : SorterState) :
    (t < s.lastSentResolvedTs → stepResolved t s = ([], some s)) ∧
    (s.lastSentResolvedTs ≤ t →
      stepResolved t s =
        ([Emitted.resolvedMarker t], some { s with lastSentResolvedTs := t })) := by
  constructor
  · exact stepResolved_eq_drop t s
  · intro h
    exact stepResolved_eq_fwd t s (Nat.not_lt.mpr h)

/-- Concrete instance of claim C6's theorem. -/
theorem stale_marker_contract_witness :
    stepResolved 2 ⟨5, 0⟩ = ([], some ⟨5, 0⟩) ∧
    stepResolved 7 ⟨5, 0⟩ = ([Emitted.resolvedMarker 7], some ⟨7, 0⟩) :=
  ⟨(stale_marker_contract 2 ⟨5, 0⟩).1 (by decide),
   (stale_marker_contract 7 ⟨5, 0⟩).2 (by decide)⟩

/-- Claim C7: a puller resolved event whose timestamp is strictly below
the stored resolvedTs makes TryHandleDataMessage panic with a diagnostic
carrying the table identifier and both timestamps; otherwise the stored
resolvedTs is updated to the new value; and on every non-panicking
message ResolvedTs never decreases. -/
theorem resolved_regression_panics (s : NodeState) (crts : Nat) :
    (crts < s.resolvedTs →
      tryHandleDataMessage s (PMsg.polymorphic (PEvent.rawResolved crts)) =
        HandleOutcome.panicked s.tableID crts s.resolvedTs) ∧
    (s.resolvedTs ≤ crts →
      tryHandleDataMessage s (PMsg.polymorphic (PEvent.rawResolved crts)) =
        HandleOutcome.handled { s with resolvedTs := crts }) ∧
    (∀ (m : PMsg) (s1 : NodeState),
      tryHandleDataMessage s m = HandleOutcome.handled s1 →
        ResolvedTs s ≤ ResolvedTs s1) := by
  have heq : ∀ c1 : Nat,
      tryHandleDataMessage s (PMsg.polymorphic (PEvent.rawResolved c1)) =
        if s.resolvedTs > c1 then HandleOutcome.panicked s.tableID c1 s.resolvedTs
        else HandleOutcome.handled { s with resolvedTs := c1 } := fun c1 => rfl
  refine ⟨?_, ?_, ?_⟩
  · intro h
    rw [heq crts, if_pos h]
  · intro h
    rw [heq crts, if_neg (Nat.not_lt.mpr h)]
  · intro m s1 h
    cases m with
    | polymorphic ev =>
      cases ev with
      | rawResolved crts2 =>
        rw [heq crts2] at h
        by_cases hlt : s.resolvedTs > crts2
        · rw [if_pos hlt] at h
          exact HandleOutcome.noConfusion h
        · rw [if_neg hlt] at h
          have h2 := HandleOutcome.handled.inj h
          rw [← h2]
          exact Nat.not_lt.mp hlt
      | rawOther crts2 =>
        have h2 := HandleOutcome.handled.inj h
        rw [← h2]
      | noRaw =>
        have h2 := HandleOutcome.handled.inj h
        rw [← h2]
    | otherMsg =>
      have h2 := HandleOutcome.handled.inj h
      rw [← h2]

/-- Concrete instance of claim C7's theorem. -/
theorem resolved_regression_panics_witness :
    tryHandleDataMessage ⟨5, 1, "tbl"⟩ (PMsg.polymorphic (PEvent.rawResolved 3)) =
      HandleOutcome.panicked 1 3 5 ∧
    tryHandleDataMessage ⟨5, 1, "tbl"⟩ (PMsg.polymorphic (PEvent.rawResolved 9)) =
      HandleOutcome.handled ⟨9, 1, "tbl"⟩ :=
  ⟨(resolved_regression_panics ⟨5, 1, "tbl"⟩ 3).1 (by decide),
   (resolved_regression_panics ⟨5, 1, "tbl"⟩ 9).2.1 (by decide)⟩

/-! ## Helper lemmas: the interpolation and callback outputs contain only
resolved markers -/

theorem mem_interpolate_marker (env : StepEnv) (c : Nat) (s : SorterState)
    (e : Emitted) (h : e ∈ (interpolate env c s).1) :
    ∃ t, e = Emitted.resolvedMarker t := by
  unfold interpolate at h
  split at h
  · split at h
    · rw [List.mem_singleton] at h
      exact ⟨_, h⟩
    · exact absurd h (List.not_mem_nil e)
  · exact absurd h (List.not_mem_nil e)

theorem mem_blockCallback_marker (s : SorterState) (e : Emitted)
    (h : e ∈ (blockCallback s).1) : ∃ t, e = Emitted.resolvedMarker t := by
  unfold blockCallback at h
  split at h
  · rw [List.mem_singleton] at h
    exact ⟨_, h⟩
  · exact absurd h (List.not_mem_nil e)

theorem mem_runCallbacks_marker (n : Nat) :
    ∀ (s : SorterState) (e : Emitted), e ∈ (runCallbacks n s).1 →
      ∃ t, e = Emitted.resolvedMarker t := by
  induction n with
  | zero =>
    intro s e h
    exact absurd h (List.not_mem_nil e)
  | succ k ih =>
    intro s e h
    simp only [runCallbacks, List.mem_append] at h
    rcases h with h | h
    · exact mem_blockCallback_marker s e h
    · exact ih (blockCallback s).2 e h

/-- Claim C8: when Consume returns an error the dispatch loop terminates in
every case; the flow-controller-aborted error is swallowed (no stop
message, no thrown error in the step's effects); any other Consume error
ends the step with a stop message to the owning actor in actor mode and a
thrown error in legacy mode; and an unrecognized sort-engine configuration
makes the engine-selection step of stage startup return the
unknown-sort-engine error (before any loop activity is launched). -/
theorem fatal_error_contract :
    (∀ (isActor : Bool) (env : StepEnv) (c sz : Nat) (s : SorterState),
        env.consumeError = some ConsumeError.aborted →
          (stepData isActor env c sz s).2 = none ∧
          Emitted.stopMsg ∉ (stepData isActor env c sz s).1 ∧
          Emitted.thrown ∉ (stepData isActor env c sz s).1) ∧
    (∀ (env : StepEnv) (c sz : Nat) (s : SorterState),
        env.consumeError = some ConsumeError.otherErr →
          (stepData true env c sz s).2 = none ∧
          (stepData true env c sz s).1.getLast? = some Emitted.stopMsg ∧
          (stepData false env c sz s).2 = none ∧
          (stepData false env c sz s).1.getLast? = some Emitted.thrown) ∧
    (∀ (name : String) (dirOk createOk : Bool),
        selectSorter (SortEngineKind.otherEngine name) dirOk createOk =
          Except.error (StartError.unknownSortEngine name)) := by
  refine ⟨?_, ?_, ?_⟩
  · intro isActor env c sz s h
    rw [stepData_eq_aborted isActor env c sz s h]
    refine ⟨rfl, ?_, ?_⟩ <;> intro hmem <;>
      rw [List.mem_append] at hmem <;>
      rcases hmem with hmem | hmem
    · obtain ⟨t, ht⟩ := mem_interpolate_marker env c s _ hmem
      exact Emitted.noConfusion ht
    · obtain ⟨t, ht⟩ := mem_runCallbacks_marker env.blockCount _ _ hmem
      exact Emitted.noConfusion ht
    · obtain ⟨t, ht⟩ := mem_interpolate_marker env c s _ hmem
      exact Emitted.noConfusion ht
    · obtain ⟨t, ht⟩ := mem_runCallbacks_marker env.blockCount _ _ hmem
      exact Emitted.noConfusion ht
  · intro env c sz s h
    rw [stepData_eq_otherErr true env c sz s h,
      stepData_eq_otherErr false env c sz s h]
    refine ⟨rfl, ?_, rfl, ?_⟩ <;> simp [List.getLast?_concat]
  · intro name dirOk createOk
    rfl

/-- Concrete instance of claim C8's theorem. -/
theorem fatal_error_contract_witness :
    (stepData true ⟨true, 0, some ConsumeError.aborted⟩ 5 1 ⟨0, 0⟩).2 = none ∧
    (stepData true ⟨true, 0, some ConsumeError.otherErr⟩ 5 1 ⟨0, 0⟩).1.getLast? =
      some Emitted.stopMsg ∧
    (stepData false ⟨true, 0, some ConsumeError.otherErr⟩ 5 1 ⟨0, 0⟩).1.getLast? =
      some Emitted.thrown ∧
    selectSorter (SortEngineKind.otherEngine "weird") true true =
      Except.error (StartError.unknownSortEngine "weird") :=
  ⟨(fatal_error_contract.1 true ⟨true, 0, some ConsumeError.aborted⟩ 5 1 ⟨0, 0⟩ rfl).1,
   (fatal_error_contract.2.1 ⟨true, 0, some ConsumeError.otherErr⟩ 5 1 ⟨0, 0⟩ rfl).2.1,
   (fatal_error_contract.2.1 ⟨true, 0, some ConsumeError.otherErr⟩ 5 1 ⟨0, 0⟩ rfl).2.2.2,
   fatal_error_contract.2.2 "weird" true true⟩

/-! ## Helper lemmas: non-resolved messages leave the node state unchanged -/

theorem tryHandle_non_resolved (s : NodeState) (m : PMsg)
    (h : isPullerResolved m = false) :
    tryHandleDataMessage s m = HandleOutcome.handled s := by
  cases m with
  | polymorphic ev =>
    cases ev with
    | rawResolved crts => simp [isPullerResolved] at h
    | rawOther crts => rfl
    | noRaw => rfl
  | otherMsg => rfl

theorem handleAll_non_resolved :
    ∀ (msgs : List PMsg) (s : NodeState),
      (∀ m ∈ msgs, isPullerResolved m = false) → handleAll s msgs = some s := by
  intro msgs
  induction msgs with
  | nil =>
    intro s h
    rfl
  | cons m ms ih =>
    intro s h
    have hm := h m (List.mem_cons_self m ms)
    simp only [handleAll, tryHandle_non_resolved s m hm]
    exact ih s fun x hx => h x (List.mem_cons_of_mem m hx)

/-- Claim C10: between the construction of a sorter node with start
timestamp startTs and the first puller resolved event, ResolvedTs returns
exactly startTs: the stored resolved timestamp is initialised to startTs
by newSorterNode and is left unchanged by every message that is not a
puller resolved event. -/
theorem start_ts_initial (tableName : String) (tableID : Int) (startTs : Nat) :
    ResolvedTs (newSorterNode tableName tableID startTs) = startTs ∧
    ∀ msgs : List PMsg, (∀ m ∈ msgs, isPullerResolved m = false) →
      handleAll (newSorterNode tableName tableID startTs) msgs =
        some (newSorterNode tableName tableID startTs) :=
  ⟨rfl, fun msgs h => handleAll_non_resolved msgs _ h⟩

/-- Concrete instance of claim C10's theorem. -/
theorem start_ts_initial_witness :
    ResolvedTs (newSorterNode "tbl" 1 42) = 42 ∧
    handleAll (newSorterNode "tbl" 1 42)
        [PMsg.otherMsg, PMsg.polymorphic PEvent.noRaw,
         PMsg.polymorphic (PEvent.rawOther 7)] =
      some (newSorterNode "tbl" 1 42) :=
  ⟨(start_ts_initial "tbl" 1 42).1,
   (start_ts_initial "tbl" 1 42).2
     [PMsg.otherMsg, PMsg.polymorphic PEvent.noRaw,
      PMsg.polymorphic (PEvent.rawOther 7)] (by decide)⟩

/-! ## Helper lemmas: the causality detector -/

theorem mem_collectRoots (r : Relations) (keys : List String) (z : String) :
    z ∈ collectRoots r keys ↔ ∃ k ∈ keys, lookupRel r k = some z :=
  List.mem_filterMap

theorem detectConflict_iff (r : Relations) (keys : List String) :
    detectConflict r keys = true ↔
      ∃ k1 ∈ keys, ∃ k2 ∈ keys, ∃ r1 r2,
        lookupRel r k1 = some r1 ∧ lookupRel r k2 = some r2 ∧ r1 ≠ r2 := by
  cases hc : collectRoots r keys with
  | nil =>
    have hd : detectConflict r keys = false := by
      unfold detectConflict
      rw [hc]
    rw [hd]
    constructor
    · intro h
      exact absurd h (by simp)
    · rintro ⟨k1, hk1, k2, hk2, r1, r2, h1, h2, hne⟩
      have hmem : r1 ∈ collectRoots r keys :=
        (mem_collectRoots r keys r1).mpr ⟨k1, hk1, h1⟩
      rw [hc] at hmem
      exact absurd hmem (List.not_mem_nil r1)
  | cons root rest =>
    have hd : detectConflict r keys = rest.any fun x => x != root := by
      unfold detectConflict
      rw [hc]
    rw [hd]
    constructor
    · intro hany
      rw [List.any_eq_true] at hany
      obtain ⟨x, hx, hxne⟩ := hany
      rw [bne_iff_ne] at hxne
      have hrootmem : root ∈ collectRoots r keys := by
        rw [hc]
        exact List.mem_cons_self root rest
      have hxmem : x ∈ collectRoots r keys := by
        rw [hc]
        exact List.mem_cons_of_mem root hx
      obtain ⟨k1, hk1, h1⟩ := (mem_collectRoots r keys x).mp hxmem
      obtain ⟨k2, hk2, h2⟩ := (mem_collectRoots r keys root).mp hrootmem
      exact ⟨k1, hk1, k2, hk2, x, root, h1, h2, hxne⟩
    · rintro ⟨k1, hk1, k2, hk2, r1, r2, h1, h2, hne⟩
      rw [List.any_eq_true]
      have m1 : r1 ∈ root :: rest := by
        rw [← hc]
        exact (mem_collectRoots r keys r1).mpr ⟨k1, hk1, h1⟩
      have m2 : r2 ∈ root :: rest := by
        rw [← hc]
        exact (mem_collectRoots r keys r2).mpr ⟨k2, hk2, h2⟩
      by_cases h1r : r1 = root
      · subst h1r
        have h2r : r2 ≠ r1 := fun hh => hne hh.symm
        have hmem : r2 ∈ rest := by
          rcases List.mem_cons.mp m2 with hh | hh
          · exact absurd hh h2r
          · exact hh
        exact ⟨r2, hmem, bne_iff_ne.mpr h2r⟩
      · have hmem : r1 ∈ rest := by
          rcases List.mem_cons.mp m1 with hh | hh
          · exact absurd hh h1r
          · exact hh
        exact ⟨r1, hmem, bne_iff_ne.mpr h1r⟩

theorem lookupRel_filter_ne (r : StrMap) (k key : String) (h : key ≠ k) :
    lookupRel (r.filter fun p => p.1 != k) key = lookupRel r key := by
  induction r with
  | nil => rfl
  | cons a r ih =>
    obtain ⟨a1, a2⟩ := a
    rw [List.filter_cons]
    by_cases hak : a1 = k
    · subst hak
      have hcond : (((a1, a2) : String × String).1 != a1) = false := by simp
      rw [hcond]
      simp only [Bool.false_eq_true, if_false]
      rw [ih]
      show lookupRel r key = if key = a1 then some a2 else lookupRel r key
      rw [if_neg h]
    · have hcond : (((a1, a2) : String × String).1 != k) = true := by
        simp [hak]
      rw [hcond]
      simp only [if_true]
      show (if key = a1 then some a2
            else lookupRel (r.filter fun p => p.1 != k) key) =
           (if key = a1 then some a2 else lookupRel r key)
      by_cases hka : key = a1
      · rw [if_pos hka, if_pos hka]
      · rw [if_neg hka, if_neg hka, ih]

theorem lookupRel_insertRel (r : StrMap) (k v key : String) :
    lookupRel (insertRel r k v) key =
      if key = k then some v else lookupRel r key := by
  unfold insertRel
  show (if key = k then some v
        else lookupRel (r.filter fun p => p.1 != k) key) =
       if key = k then some v else lookupRel r key
  by_cases hk : key = k
  · rw [if_pos hk, if_pos hk]
  · rw [if_neg hk, if_neg hk, lookupRel_filter_ne r k key hk]

theorem foldl_insert_lookup_not_mem :
    ∀ (keys : List String) (r : StrMap) (root k : String), k ∉ keys →
      lookupRel (keys.foldl (fun acc k1 => insertRel acc k1 root) r) k =
        lookupRel r k := by
  intro keys
  induction keys with
  | nil =>
    intro r root k h
    rfl
  | cons a ks ih =>
    intro r root k h
    have hka : k ≠ a := fun hh => h (hh ▸ List.mem_cons_self a ks)
    have hkks : k ∉ ks := fun hh => h (List.mem_cons_of_mem a hh)
    rw [List.foldl_cons, ih (insertRel r a root) root k hkks,
      lookupRel_insertRel r a root k, if_neg hka]

theorem foldl_insert_lookup_mem :
    ∀ (keys : List String) (r : StrMap) (root k : String), k ∈ keys →
      lookupRel (keys.foldl (fun acc k1 => insertRel acc k1 root) r) k =
        some root := by
  intro keys
  induction keys with
  | nil =>
    intro r root k h
    exact absurd h (List.not_mem_nil k)
  | cons a ks ih =>
    intro r root k h
    rw [List.foldl_cons]
    by_cases hks : k ∈ ks
    · exact ih (insertRel r a root) root k hks
    · have hka : k = a := by
        rcases List.mem_cons.mp h with hh | hh
        · exact hh
        · exact absurd hh hks
      subst hka
      rw [foldl_insert_lookup_not_mem ks (insertRel r k root) root k hks,
        lookupRel_insertRel r k root k, if_pos rfl]

theorem chooseRoot_spec (r : Relations) (keys : List String) (root : String)
    (h : chooseRoot r keys = some root) :
    (∃ k ∈ keys, lookupRel r k = some root) ∨
      ((∀ k ∈ keys, lookupRel r k = none) ∧ keys.head? = some root) := by
  unfold chooseRoot at h
  cases hc : collectRoots r keys with
  | nil =>
    rw [hc] at h
    right
    refine ⟨?_, h⟩
    intro k hk
    cases hl : lookupRel r k with
    | none => rfl
    | some z =>
      have hmem : z ∈ collectRoots r keys :=
        (mem_collectRoots r keys z).mpr ⟨k, hk, hl⟩
      rw [hc] at hmem
      exact absurd hmem (List.not_mem_nil z)
  | cons root1 rest =>
    rw [hc] at h
    have h2 : some root1 = some root := h
    obtain rfl := Option.some.inj h2
    left
    have hmem : root1 ∈ collectRoots r keys := by
      rw [hc]
      exact List.mem_cons_self root1 rest
    exact (mem_collectRoots r keys root1).mp hmem

theorem chooseRoot_is_some (r : Relations) (k : String) (keys : List String) :
    ∃ root, chooseRoot r (k :: keys) = some root := by
  unfold chooseRoot
  cases hc : collectRoots r (k :: keys) with
  | nil => exact ⟨k, rfl⟩
  | cons root1 rest => exact ⟨root1, rfl⟩

theorem add_maps (r : Relations) (keys : List String) (root : String)
    (h : chooseRoot r keys = some root) :
    ∀ k ∈ keys, lookupRel (add r keys) k = some root := by
  intro k hk
  unfold add
  rw [h]
  exact foldl_insert_lookup_mem keys r root k hk

/-- Claim C2: for the causality detector, HasConflict(keys) is true iff at
least two keys of the list are already present in the relation table with
distinct roots (absent keys contribute no root); Add(keys) maps every key
of the list to one root, chosen as the root of an already-present key of
the list if one exists and otherwise as the first key of the list (a root
always exists for a non-empty list); Reset leaves the relation table
empty; and adding the test keys test_1, test_2, test_3 to an empty table
reports no conflict and maps all three to root test_1. -/
theorem causality_detector_contract :
    (∀ (r : Relations) (keys : List String),
        detectConflict r keys = true ↔
          ∃ k1 ∈ keys, ∃ k2 ∈ keys, ∃ r1 r2,
            lookupRel r k1 = some r1 ∧ lookupRel r k2 = some r2 ∧ r1 ≠ r2) ∧
    (∀ (r : Relations) (k : String) (keys : List String),
        ∃ root, chooseRoot r (k :: keys) = some root) ∧
    (∀ (r : Relations) (keys : List String) (root : String),
        chooseRoot r keys = some root →
          ((∃ k ∈ keys, lookupRel r k = some root) ∨
            ((∀ k ∈ keys, lookupRel r k = none) ∧ keys.head? = some root)) ∧
          ∀ k ∈ keys, lookupRel (add r keys) k = some root) ∧
    reset = ([] : Relations) ∧
    detectConflict [] ["test_1", "test_2", "test_3"] = false ∧
    lookupRel (add [] ["test_1", "test_2", "test_3"]) "test_1" = some "test_1" ∧
    lookupRel (add [] ["test_1", "test_2", "test_3"]) "test_2" = some "test_1" ∧
    lookupRel (add [] ["test_1", "test_2", "test_3"]) "test_3" = some "test_1" := by
  refine ⟨detectConflict_iff, chooseRoot_is_some, ?_, rfl, by decide, by decide,
    by decide, by decide⟩
  intro r keys root h
  exact ⟨chooseRoot_spec r keys root h, add_maps r keys root h⟩

/-- Concrete instance of claim C2's theorem. -/
theorem causality_detector_contract_witness :
    detectConflict [("k1", "a"), ("k2", "b")] ["k1", "k2"] = true ∧
    lookupRel (add [("k1", "a")] ["k1", "k3"]) "k3" = some "a" :=
  ⟨(causality_detector_contract.1 [("k1", "a"), ("k2", "b")] ["k1", "k2"]).mpr
     ⟨"k1", by decide, "k2", by decide, "a", "b", by decide, by decide, by decide⟩,
   (causality_detector_contract.2.2.1 [("k1", "a")] ["k1", "k3"] "a" (by decide)).2
     "k3" (by decide)⟩

/-- Claim C3: feeding the Causality Relay the DML job sequence insert(1,2),
insert(2,3), update((2,3) to (3,4)), delete(1,2), insert(1,3) over test
table tb (primary key a, unique b) yields on the outbound queue exactly
the kinds insert, insert, update, delete, conflict-marker, insert, with
the conflict marker immediately before the final insert; and at that point
the relation table was reset: afterwards it maps only the final insert's
keys (both to root "1.a."), the pre-conflict group of "2.a." being gone. -/
theorem relay_scenario :
    (relayRun tbIndexes reset tbJobs).1 =
      [dmlJob OpType.insert none (some (tbRow "1" "2")),
       dmlJob OpType.insert none (some (tbRow "2" "3")),
       dmlJob OpType.update (some (tbRow "2" "3")) (some (tbRow "3" "4")),
       dmlJob OpType.del (some (tbRow "1" "2")) none,
       conflictJob,
       dmlJob OpType.insert none (some (tbRow "1" "3"))] ∧
    (relayRun tbIndexes reset tbJobs).1.map Job.tp =
      [OpType.insert, OpType.insert, OpType.update, OpType.del,
       OpType.conflict, OpType.insert] ∧
    lookupRel (relayRun tbIndexes reset tbJobs).2 "1.a." = some "1.a." ∧
    lookupRel (relayRun tbIndexes reset tbJobs).2 "3.b." = some "1.a." ∧
    lookupRel (relayRun tbIndexes reset tbJobs).2 "2.a." = none := by
  refine ⟨by decide, by decide, by decide, by decide, by decide⟩

/-! ## Helper lemmas: prefix-index causality keys -/

theorem str_append_cancel_right (a b t : String) (h : a ++ t = b ++ t) :
    a = b := by
  apply String.ext
  have hd := congrArg String.data h
  rw [String.data_append, String.data_append] at hd
  exact List.append_cancel_right hd

theorem str_append_cancel_left (t a b : String) (h : t ++ a = t ++ b) :
    a = b := by
  apply String.ext
  have hd := congrArg String.data h
  rw [String.data_append, String.data_append] at hd
  exact List.append_cancel_left hd

theorem genIndexKey_c1 (v : String) :
    genIndexKey [("c1", v)] [⟨"c1", some 3⟩] =
      "" ++ v.take 3 ++ "." ++ "c1" ++ "." := rfl

/-- Claim C9: for a table with a unique prefix index truncating column c1
to 3 characters, a DML row with c1 value "1234" derives the causality key
"123.c1." and a row with value "2345" derives "234.c1."; consequently two
rows agreeing on the 3-character prefix derive the same key and two rows
differing in the prefix derive different keys. -/
theorem prefix_index_keys :
    genIndexKey [("c1", "1234"), ("c2", "1")] [⟨"c1", some 3⟩] = "123.c1." ∧
    genIndexKey [("c1", "2345"), ("c2", "2")] [⟨"c1", some 3⟩] = "234.c1." ∧
    (∀ v w : String, v.take 3 = w.take 3 →
        genIndexKey [("c1", v)] [⟨"c1", some 3⟩] =
          genIndexKey [("c1", w)] [⟨"c1", some 3⟩]) ∧
    (∀ v w : String, v.take 3 ≠ w.take 3 →
        genIndexKey [("c1", v)] [⟨"c1", some 3⟩] ≠
          genIndexKey [("c1", w)] [⟨"c1", some 3⟩]) := by
  refine ⟨by decide, by decide, ?_, ?_⟩
  · intro v w h
    rw [genIndexKey_c1, genIndexKey_c1, h]
  · intro v w h hk
    apply h
    rw [genIndexKey_c1, genIndexKey_c1] at hk
    have h1 := str_append_cancel_right _ _ _ hk
    have h2 := str_append_cancel_right _ _ _ h1
    have h3 := str_append_cancel_right _ _ _ h2
    exact str_append_cancel_left _ _ _ h3

/-- Concrete instance of claim C9's theorem. -/
theorem prefix_index_keys_witness :
    genIndexKey [("c1", "12ab")] [⟨"c1", some 3⟩] =
      genIndexKey [("c1", "12ac")] [⟨"c1", some 3⟩] ∧
    genIndexKey [("c1", "1234")] [⟨"c1", some 3⟩] ≠
      genIndexKey [("c1", "2345")] [⟨"c1", some 3⟩] :=
  ⟨prefix_index_keys.2.2.1 "12ab" "12ac" (by decide),
   prefix_index_keys.2.2.2 "1234" "2345" (by decide)⟩

end TicdcProof
